import Mathlib

/-!
Verification development for the EVM event parser front-end
(charlesjhongc/evm-event-parser).  The core logic lives in
`src/App.tsx` (current variant) and `src/App.js` (earlier variant that
performs its own log decoding).  We shallowly embed the five core
components: the block-tag resolver `parseBlockTag`, the schema/event-list
handling (`updateEventList`, the `contractABI` branch of
`handleInputChange`), the indexed-filter builder inside `fetchEvents`,
the decode/normalize step, and the pager derived from `currentPage`.

JavaScript strings are modelled as Lean `String`/`List Char`; JS `bigint`
is modelled as `Int`; platform primitives used by the code
(`String.prototype.trim`, `toLowerCase`, the regex
`/^latest\s*([+-]?\d+)$/`, and `BigInt(string)` i.e. the ECMAScript
StringToBigInt conversion) are modelled explicitly below.  Fallible JS
code (a `throw` that escapes the function) is modelled with `Except`.
-/

/-- The ECMAScript white-space set used by `String.prototype.trim`,
StringToBigInt and the regex class `\s`: TAB, LF, VT, FF, CR, SPACE,
NBSP, and the Unicode space separators / line separators / BOM. -/
def isJsWs (c : Char) : Bool :=
  decide (c.toNat ∈ ([9, 10, 11, 12, 13, 32, 160, 0x1680, 0x2028, 0x2029,
      0x202f, 0x205f, 0x3000, 0xfeff] : List Nat)) ||
  decide (0x2000 ≤ c.toNat ∧ c.toNat ≤ 0x200a)

/-- `String.prototype.trim` on a character list: strip `isJsWs`
characters from both ends. -/
def trimL (l : List Char) : List Char :=
  ((l.dropWhile isJsWs).reverse.dropWhile isJsWs).reverse

/-- `String.prototype.trim`. -/
def jsTrim (s : String) : String := String.mk (trimL s.toList)

/-- `String.prototype.toLowerCase`, restricted to the ASCII letters that
the block-tag grammar can meet ("latest" comparison and the regex). -/
def jsToLowerChar (c : Char) : Char :=
  if 'A' ≤ c ∧ c ≤ 'Z' then Char.ofNat (c.toNat + 32) else c

/-- Value of one digit character in the given radix (ECMAScript numeric
literal digits: `0-9`, `a-f`, `A-F`), or `none` if the character is not a
digit of that radix. -/
def digitVal? (radix : Nat) (c : Char) : Option Nat :=
  let n := c.toNat
  if 48 ≤ n ∧ n ≤ 57 ∧ n - 48 < radix then some (n - 48)
  else if 97 ≤ n ∧ n ≤ 102 ∧ n - 87 < radix then some (n - 87)
  else if 65 ≤ n ∧ n ≤ 70 ∧ n - 55 < radix then some (n - 55)
  else none

/-- One step of reading a digit string most-significant-first. -/
def stepDigit (radix : Nat) (acc : Option Nat) (c : Char) : Option Nat :=
  match acc, digitVal? radix c with
  | some a, some d => some (a * radix + d)
  | _, _ => none

/-- Read a non-empty all-digits string in the given radix; `none` if the
list is empty or any character is not a digit of the radix. -/
def parseRadix (radix : Nat) : List Char → Option Nat
  | [] => none
  | l => l.foldl (stepDigit radix) (some 0)

/-- ECMAScript `SignedInteger`: optional `+`/`-` sign followed by one or
more decimal digits. -/
def parseSignedDec : List Char → Option Int
  | '+' :: ds => (parseRadix 10 ds).map Int.ofNat
  | '-' :: ds => (parseRadix 10 ds).map (fun n => -(Int.ofNat n))
  | ds => (parseRadix 10 ds).map Int.ofNat

/-- The regex `/^latest\s*([+-]?\d+)$/` from `parseBlockTag`
(src/App.tsx line 120), applied to the lower-cased trimmed input; on a
match, the value of `BigInt(capture)` for the captured signed integer. -/
def latestOffset? : List Char → Option Int
  | 'l' :: 'a' :: 't' :: 'e' :: 's' :: 't' :: rest =>
      parseSignedDec (rest.dropWhile isJsWs)
  | _ => none

/-- ECMAScript `BigInt(string)` (StringToBigInt): strip white space; the
empty remainder is `0`; `0x`/`0X`, `0o`/`0O`, `0b`/`0B` prefixes give an
unsigned non-decimal literal; otherwise a signed decimal literal; any
other shape throws (modelled as `none`). -/
def jsStringToBigIntL (l : List Char) : Option Int :=
  match trimL l with
  | [] => some 0
  | '0' :: c :: ds =>
      if c = 'x' ∨ c = 'X' then (parseRadix 16 ds).map Int.ofNat
      else if c = 'o' ∨ c = 'O' then (parseRadix 8 ds).map Int.ofNat
      else if c = 'b' ∨ c = 'B' then (parseRadix 2 ds).map Int.ofNat
      else parseSignedDec ('0' :: c :: ds)
  | t => parseSignedDec t

/-- `BigInt(string)` on a Lean `String`. -/
def jsStringToBigInt (s : String) : Option Int := jsStringToBigIntL s.toList

/-- Result of `parseBlockTag` (src/App.tsx line 110): a resolved block
height (`bigint`) or the original string passed through. -/
inductive BlockTag where
  | num (n : Int)
  | tag (s : String)
deriving DecidableEq, Repr

/-- `parseBlockTag` from src/App.tsx lines 110-137.  `trimmed`, the
`"latest"` comparison on the lower-cased input, the regex branch, and
the `BigInt` branch with `startsWith("+")` / `startsWith("-")` and
`trimmed.slice(1)` are translated clause for clause; the `catch` branch
returns the original `str`. -/
def parseBlockTag (str : String) (latestBlockNum : Int) : BlockTag :=
  if trimL str.toList = [] then .num latestBlockNum
  else if (trimL str.toList).map jsToLowerChar = ['l', 'a', 't', 'e', 's', 't'] then
    .num latestBlockNum
  else
    match latestOffset? ((trimL str.toList).map jsToLowerChar) with
    | some off => .num (latestBlockNum + off)
    | none =>
      match jsStringToBigIntL (trimL str.toList) with
      | some parsed =>
        match trimL str.toList with
        | '+' :: _ => .num (latestBlockNum + parsed)
        | '-' :: rest =>
          (match jsStringToBigIntL rest with
           | some m => .num (latestBlockNum - m)
           | none => .tag str)
        | _ => .num parsed
      | none => .tag str

/-- A decoded JavaScript value as it appears in a log's argument
payload: a `bigint`, a string, a boolean, `null`, or `undefined`
(composite array values do not occur in the claims and are omitted).
`typeof value === "bigint"` holds exactly for the `bigint`
constructor. -/
inductive JsValue where
  | bigint (n : Int)
  | str (s : String)
  | boolean (b : Bool)
  | nullv
  | undef
deriving DecidableEq, Repr

/-- `BigInt.prototype.toString()` (radix 10): decimal digits with a
leading `-` for negative values. -/
def jsBigIntToString (n : Int) : String :=
  if n < 0 then "-" ++ Nat.repr n.natAbs else Nat.repr n.natAbs

/-- `AbiEventInput` from src/App.tsx lines 6-10 (`indexed` is optional). -/
structure AbiEventInput where
  name : String
  type : String
  indexed : Option Bool
deriving DecidableEq, Repr

/-- `AbiEventItem` from src/App.tsx lines 12-16 (`inputs` is optional). -/
structure AbiEventItem where
  type : String
  name : String
  inputs : Option (List AbiEventInput)
deriving DecidableEq, Repr

/-- `EventLogEntry` from src/App.tsx lines 18-22; `args` is the decoded
argument record. -/
structure EventLogEntry where
  blockNumber : Option Int
  txHash : Option String
  args : List (String × JsValue)
deriving DecidableEq, Repr

/-- A raw log record as returned by the chain client's
`getContractEvents`, as read by src/App.tsx lines 195-202. -/
structure RawLog where
  blockNumber : Int
  transactionHash : String
  args : Option (List (String × JsValue))
deriving DecidableEq, Repr

/-- The `formData` state object of src/App.tsx lines 25-31. -/
structure FormData where
  contractAddress : String
  contractABI : String
  fromBlock : String
  toBlock : String
  rpcEndpoint : String
deriving DecidableEq, Repr

/-- The component state of src/App.tsx lines 25-42 (the parts the core
logic reads or writes).  `indexedFilters` and the `args` filter object
are modelled as insertion-ordered association lists with distinct keys,
matching JS object key order. -/
structure AppState where
  formData : FormData
  events : List EventLogEntry
  loading : Bool
  error : String
  customABI : List AbiEventItem
  doCustom : Bool
  indexedFilters : List (String × String)
  eventsABI : List AbiEventItem
  selectedEvent : String
  currentPage : Nat
deriving DecidableEq, Repr

/-- The value of `eventsPerPage` in src/App.tsx line 42. -/
def eventsPerPage : Nat := 15

/-- `handleEventSelect` (src/App.tsx lines 59-61): it sets
`selectedEvent` and nothing else. -/
def handleEventSelect (value : String) (st : AppState) : AppState :=
  { st with selectedEvent := value }

/-- `handleFilterChange` (src/App.tsx lines 63-65):
`{ ...indexedFilters, [paramName]: value }` overwrites an existing key
in place or appends a new one. -/
def handleFilterChange (paramName value : String) (st : AppState) : AppState :=
  { st with indexedFilters :=
      if st.indexedFilters.any (fun kv => kv.1 == paramName) then
        st.indexedFilters.map (fun kv => if kv.1 == paramName then (paramName, value) else kv)
      else st.indexedFilters ++ [(paramName, value)] }

/-- `updateEventList` (src/App.tsx lines 94-108): filter the ABI items
to `type === "event"`; an empty result throws "No events found in the
ABI definition", which the surrounding `catch` turns into resetting
`eventsABI` and `selectedEvent`; otherwise store the filtered list and
select the first event's name. -/
def updateEventList (abi : List AbiEventItem) (st : AppState) : AppState :=
  match abi.filter (fun item => item.type == "event") with
  | [] => { st with eventsABI := [], selectedEvent := "" }
  | e :: rest => { st with eventsABI := e :: rest, selectedEvent := e.name }

/-- The `contractABI` branch of `handleInputChange` (src/App.tsx lines
44-57).  `jsonParse` models the platform primitive `JSON.parse`
specialised to this input (`none` = `JSON.parse` throws `SyntaxError`).
The `JSON.parse` call sits outside any `try`, so a parse failure
propagates out of the handler; this is the `Except.error` result. -/
def handleInputChangeABI (value : String)
    (jsonParse : String → Option (List AbiEventItem)) (st : AppState) :
    Except String AppState :=
  if jsTrim value = "" then
    .ok { st with
          formData := { st.formData with contractABI := value },
          eventsABI := [],
          selectedEvent := "" }
  else
    match jsonParse (jsTrim value) with
    | none => .error "SyntaxError: JSON.parse failed"
    | some abi =>
        .ok (updateEventList abi
          { st with
            formData := { st.formData with contractABI := value },
            customABI := abi })

/-- `String.prototype.split` with a single-character separator, on a
character list: the separator never appears inside a piece, and `n`
separators yield `n + 1` pieces (the empty string splits to `[""]`). -/
def splitCharL (sep : Char) : List Char → List (List Char)
  | [] => [[]]
  | c :: rest =>
    if c = sep then [] :: splitCharL sep rest
    else
      match splitCharL sep rest with
      | [] => [[c]]
      | piece :: pieces => (c :: piece) :: pieces

/-- `value.split(",").map(item => item.trim())` from src/App.tsx
line 177. -/
def splitAndTrim (value : String) : List String :=
  (splitCharL ',' value.toList).map (fun cs => String.mk (trimL cs))

/-- The `argsFilters` computation inside `fetchEvents` (src/App.tsx
lines 174-182): `Object.entries(indexedFilters).reduce(...)` keeps an
entry when `value.length !== 0`, splitting the value on `","` and
trimming each piece. -/
def buildArgsFilters (filters : List (String × String)) : List (String × List String) :=
  filters.foldl
    (fun acc kv =>
      if kv.2.length != 0 then acc ++ [(kv.1, splitAndTrim kv.2)]
      else acc)
    []

/-- The indexed parameters of the currently selected event, as computed
for the advanced-filter UI (src/App.tsx lines 300-302):
`eventsABI.find(e => e.name === selectedEvent)?.inputs?.filter(i => i.indexed === true) ?? []`. -/
def selectedIndexedParams (st : AppState) : List AbiEventInput :=
  ((st.eventsABI.find? (fun ev => ev.name == st.selectedEvent)).map
    (fun ev => (ev.inputs.getD []).filter (fun inp => inp.indexed == some true))).getD []

/-- `fromBlock`/`toBlock` as passed to `getContractEvents` (src/App.tsx
lines 191-192): `typeof x === "bigint" ? x : undefined`. -/
def blockTagToArg : BlockTag → Option Int
  | .num n => some n
  | .tag _ => none

/-- `fetchEvents` (src/App.tsx lines 164-211).  The external chain
client is supplied as two oracles: `getBlockNumber` for
`publicClient.getBlock()` (an `Except.error` also covers a throwing
`createPublicClient`), and `getLogs` for
`publicClient.getContractEvents`, receiving the event name, the two
resolved block bounds and the args filter this code computes.  The
`catch` branch sets the error banner from the thrown message and leaves
`events`/`currentPage` untouched; `finally` clears `loading`.  The
embedding returns the state after the invocation settles, so the
transient `setLoading(true)`/`setError("")` at the top collapse into
the final field values of each branch. -/
def fetchEvents (getBlockNumber : Except String Int)
    (getLogs : String → Option Int → Option Int → List (String × List String) →
      Except String (List RawLog))
    (st : AppState) : AppState :=
  match getBlockNumber with
  | .error msg => { st with loading := false, error := "Error: " ++ msg }
  | .ok latestNum =>
    match getLogs st.selectedEvent
        (blockTagToArg (parseBlockTag st.formData.fromBlock latestNum))
        (blockTagToArg (parseBlockTag st.formData.toBlock latestNum))
        (buildArgsFilters st.indexedFilters) with
    | .error msg => { st with loading := false, error := "Error: " ++ msg }
    | .ok logs =>
      { st with
        loading := false,
        error := "",
        events := logs.map (fun log =>
          { blockNumber := some log.blockNumber,
            txHash := some log.transactionHash,
            args := log.args.getD [] : EventLogEntry }),
        currentPage := 1 }

/-- `bigIntStringify` (src/App.tsx lines 87-92), the `JSON.stringify`
replacer used when rendering `event.args`. -/
def bigIntStringify (_key : String) (value : JsValue) : JsValue :=
  match value with
  | .bigint n => .str (jsBigIntToString n)
  | v => v

/-- The per-log argument record built by `fetchEvents` in src/App.js
lines 84-93: iterate `parsed.fragment.inputs` in declared order, read
`parsed.args[i]` positionally (an out-of-range read yields
`undefined`), and convert a `bigint` value to its decimal string. -/
def decodeLogArgs (inputs : List AbiEventInput) (args : List JsValue) :
    List (String × JsValue) :=
  inputs.enum.map (fun p =>
    (p.2.name,
     match args.getD p.1 .undef with
     | .bigint n => .str (jsBigIntToString n)
     | v => v))

/-- `Array.prototype.slice(start, end)` with integer arguments:
negative indices count from the end, both indices are clamped to
`[0, length]`, and the window is empty when `end ≤ start`. -/
def jsSlice {α : Type} (l : List α) (start fin : Int) : List α :=
  let len : Int := l.length
  let s := if start < 0 then max (len + start) 0 else min start len
  let e := if fin < 0 then max (len + fin) 0 else min fin len
  (l.drop s.toNat).take (e - s).toNat

/-- The page window of src/App.tsx lines 213-215:
`events.slice(currentPage*size - size, currentPage*size)`. -/
def pageOf {α : Type} (seq : List α) (size n : Nat) : List α :=
  jsSlice seq ((n : Int) * size - size) ((n : Int) * size)

/-- `totalPages` of src/App.tsx line 216: `Math.ceil(length / size)` on
natural numbers. -/
def totalPages {α : Type} (seq : List α) (size : Nat) : Nat :=
  (seq.length + size - 1) / size

/-- `currentEvents` of src/App.tsx line 215. -/
def currentEvents (st : AppState) : List EventLogEntry :=
  pageOf st.events eventsPerPage st.currentPage

/-- The ERC-20 `Transfer` event definition (indexed `from`/`to`,
non-indexed `value`), as in the ABI placeholder of src/App.tsx. -/
def transferItem : AbiEventItem :=
  { type := "event", name := "Transfer",
    inputs := some [
      { name := "from", type := "address", indexed := some true },
      { name := "to", type := "address", indexed := some true },
      { name := "value", type := "uint256", indexed := none }] }

/-- The `CooldownStarted` event definition (indexed `holder`), as in the
event placeholder of src/App.js. -/
def cooldownItem : AbiEventItem :=
  { type := "event", name := "CooldownStarted",
    inputs := some [
      { name := "holder", type := "address", indexed := some true },
      { name := "assets", type := "uint256", indexed := none },
      { name := "shares", type := "uint256", indexed := none }] }

/-- The initial component state from the `useState` calls of
src/App.tsx lines 25-42. -/
def initialState : AppState :=
  { formData := { contractAddress := "", contractABI := "", fromBlock := "",
                  toBlock := "", rpcEndpoint := "" },
    events := [], loading := false, error := "",
    customABI := [], doCustom := true, indexedFilters := [],
    eventsABI := [], selectedEvent := "", currentPage := 1 }

/-- A session that parsed an ABI containing `CooldownStarted` and
`Transfer` and currently has `CooldownStarted` selected. -/
def cooldownSelectedState : AppState :=
  { initialState with
    eventsABI := [cooldownItem, transferItem],
    selectedEvent := "CooldownStarted" }

/-- A session as after a successful query for `CooldownStarted` events:
a stored result list, page 2, and a raw filter value for the indexed
parameter `holder`. -/
def afterQueryState : AppState :=
  { initialState with
    events := [{ blockNumber := some 1, txHash := some "0xabc",
                 args := [("holder", .str "0xA")] }],
    indexedFilters := [("holder", "0xA")],
    eventsABI := [cooldownItem, transferItem],
    selectedEvent := "CooldownStarted",
    currentPage := 2 }

/-! ### Helper lemmas about the JS string primitives -/

theorem dropWhile_head_false {α : Type} {p : α → Bool} {l : List α} {a : α} {t : List α}
    (h : l.dropWhile p = a :: t) : p a = false := by
  induction l with
  | nil => simp at h
  | cons b bs ih =>
    rw [List.dropWhile_cons] at h
    by_cases hb : p b
    · exact ih (by simpa [hb] using h)
    · obtain ⟨rfl, rfl⟩ : b = a ∧ bs = t := by simpa [hb] using h
      simpa using hb

theorem dropWhile_idem {α : Type} {p : α → Bool} {l : List α} :
    (l.dropWhile p).dropWhile p = l.dropWhile p := by
  cases h : l.dropWhile p with
  | nil => simp
  | cons a t => simp [List.dropWhile_cons, dropWhile_head_false h]

theorem getLast?_dropWhile {α : Type} {p : α → Bool} {z : List α} {a : α}
    (hz : z.getLast? = some a) (ha : p a = false) :
    (z.dropWhile p).getLast? = some a := by
  induction z with
  | nil => simp at hz
  | cons b bs ih =>
    rw [List.dropWhile_cons]
    by_cases hb : p b
    · cases bs with
      | nil =>
        simp only [List.getLast?_singleton, Option.some.injEq] at hz
        subst hz
        rw [hb] at ha
        cases ha
      | cons c cs =>
        rw [List.getLast?_cons_cons] at hz
        simp [hb, ih hz]
    · simpa [hb] using hz

theorem trimL_idem (l : List Char) : trimL (trimL l) = trimL l := by
  cases hx : l.dropWhile isJsWs with
  | nil =>
    unfold trimL
    rw [hx]
    simp
  | cons a t =>
    have ha : isJsWs a = false := dropWhile_head_false hx
    have hy : ((a :: t).reverse.dropWhile isJsWs).getLast? = some a :=
      getLast?_dropWhile (by rw [List.getLast?_reverse]; rfl) ha
    have h1 : trimL l = ((a :: t).reverse.dropWhile isJsWs).reverse := by
      unfold trimL
      rw [hx]
    have hhead : (((a :: t).reverse.dropWhile isJsWs).reverse).head? = some a := by
      rw [List.head?_reverse]
      exact hy
    obtain ⟨t', ht'⟩ : ∃ t', ((a :: t).reverse.dropWhile isJsWs).reverse = a :: t' := by
      cases hyy : ((a :: t).reverse.dropWhile isJsWs).reverse with
      | nil => rw [hyy] at hhead; cases hhead
      | cons c cs =>
        rw [hyy] at hhead
        simp only [List.head?_cons, Option.some.injEq] at hhead
        exact ⟨cs, by rw [hhead]⟩
    have h2 : (a :: t').reverse = (a :: t).reverse.dropWhile isJsWs := by
      rw [← ht']
      simp
    rw [h1, ht']
    unfold trimL
    rw [List.dropWhile_cons, ha]
    simp only [Bool.false_eq_true, if_false]
    rw [h2, dropWhile_idem, ← h2]
    simp

theorem trimL_eq_nil {l : List Char} (h : ∀ c ∈ l, isJsWs c = true) : trimL l = [] := by
  unfold trimL
  rw [List.dropWhile_eq_nil_iff.mpr h]
  simp

theorem dropWhile_eq_self_of {α : Type} {p : α → Bool} {l : List α}
    (h : ∀ c ∈ l, p c = false) : l.dropWhile p = l := by
  cases l with
  | nil => rfl
  | cons a t => simp [List.dropWhile_cons, h a (by simp)]

theorem trimL_eq_self {l : List Char} (h : ∀ c ∈ l, isJsWs c = false) : trimL l = l := by
  unfold trimL
  rw [dropWhile_eq_self_of h, dropWhile_eq_self_of (fun c hc => h c (by simpa using hc))]
  simp

theorem digit10_bounds {c : Char} (h : (digitVal? 10 c).isSome) :
    48 ≤ c.toNat ∧ c.toNat ≤ 57 := by
  unfold digitVal? at h
  dsimp only at h
  split at h
  · next h1 => omega
  · split at h
    · next h2 => omega
    · split at h
      · next h3 => omega
      · simp at h

theorem isJsWs_false_of_digit {c : Char} (h1 : 48 ≤ c.toNat) (h2 : c.toNat ≤ 57) :
    isJsWs c = false := by
  simp [isJsWs]
  omega

theorem foldl_stepDigit_none {r : Nat} (l : List Char) :
    l.foldl (stepDigit r) none = none := by
  induction l with
  | nil => rfl
  | cons c cs ih =>
    rw [List.foldl_cons]
    exact ih

theorem foldl_stepDigit_digits {r : Nat} :
    ∀ (l : List Char) (a m : Nat), l.foldl (stepDigit r) (some a) = some m →
      ∀ c ∈ l, (digitVal? r c).isSome := by
  intro l
  induction l with
  | nil =>
    intro a m _ c hc
    simp at hc
  | cons d ds ih =>
    intro a m h c hc
    rw [List.foldl_cons] at h
    cases hd : digitVal? r d with
    | none =>
      rw [show stepDigit r (some a) d = none from by simp [stepDigit, hd],
        foldl_stepDigit_none] at h
      cases h
    | some v =>
      rw [show stepDigit r (some a) d = some (a * r + v) from by simp [stepDigit, hd]] at h
      rcases List.mem_cons.mp hc with rfl | hmem
      · simp [hd]
      · exact ih _ _ h c hmem

theorem parseRadix_digits {r : Nat} {l : List Char} {m : Nat}
    (h : parseRadix r l = some m) : l ≠ [] ∧ ∀ c ∈ l, (digitVal? r c).isSome := by
  cases l with
  | nil => cases h
  | cons c cs =>
    refine ⟨by simp, ?_⟩
    exact foldl_stepDigit_digits _ _ _ h

theorem jsStringToBigIntL_digits {ds : List Char} {n : Nat}
    (hk : parseRadix 10 ds = some n) : jsStringToBigIntL ds = some (Int.ofNat n) := by
  obtain ⟨hne, hdig⟩ := parseRadix_digits hk
  have hbounds : ∀ c ∈ ds, 48 ≤ c.toNat ∧ c.toNat ≤ 57 :=
    fun c hc => digit10_bounds (hdig c hc)
  have hws : ∀ c ∈ ds, isJsWs c = false :=
    fun c hc => isJsWs_false_of_digit (hbounds c hc).1 (hbounds c hc).2
  have htr : trimL ds = ds := trimL_eq_self hws
  unfold jsStringToBigIntL
  rw [htr]
  split
  · exact absurd rfl hne
  · next c cs =>
    have hc : 48 ≤ c.toNat ∧ c.toNat ≤ 57 := hbounds c (by simp)
    have hcx : ¬(c = 'x' ∨ c = 'X') := by
      rintro (rfl | rfl) <;> revert hc <;> decide
    have hco : ¬(c = 'o' ∨ c = 'O') := by
      rintro (rfl | rfl) <;> revert hc <;> decide
    have hcb : ¬(c = 'b' ∨ c = 'B') := by
      rintro (rfl | rfl) <;> revert hc <;> decide
    rw [if_neg hcx, if_neg hco, if_neg hcb]
    rw [show parseSignedDec ('0' :: c :: cs) =
        (parseRadix 10 ('0' :: c :: cs)).map Int.ofNat from rfl, hk]
    rfl
  · next h1 h2 h3 =>
    cases ds with
    | nil => exact absurd rfl hne
    | cons r0 rs =>
      have hr0 : 48 ≤ r0.toNat ∧ r0.toNat ≤ 57 := hbounds r0 (by simp)
      unfold parseSignedDec
      split
      · next cs heq =>
        obtain ⟨rfl, rfl⟩ : r0 = '+' ∧ rs = cs := by
          injection heq with i1 i2
          exact ⟨i1, i2⟩
        exact absurd hr0 (by decide)
      · next cs heq =>
        obtain ⟨rfl, rfl⟩ : r0 = '-' ∧ rs = cs := by
          injection heq with i1 i2
          exact ⟨i1, i2⟩
        exact absurd hr0 (by decide)
      · rw [hk]
        rfl

theorem jsStringToBigIntL_minus_tail {rest : List Char} {m : Int}
    (ht : trimL ('-' :: rest) = '-' :: rest)
    (hs : jsStringToBigIntL ('-' :: rest) = some m) :
    ∃ k : Nat, jsStringToBigIntL rest = some (Int.ofNat k) := by
  unfold jsStringToBigIntL at hs
  rw [ht] at hs
  have hs' : (parseRadix 10 rest).map (fun n => -(Int.ofNat n)) = some m := hs
  obtain ⟨k, hk, -⟩ := Option.map_eq_some'.mp hs'
  exact ⟨k, jsStringToBigIntL_digits hk⟩

theorem isJsWs_not_upper {c : Char} (h : isJsWs c = true) :
    ¬(65 ≤ c.toNat ∧ c.toNat ≤ 90) := by
  simp [isJsWs] at h
  omega

theorem jsToLowerChar_eq_self {c : Char} (h : ¬(65 ≤ c.toNat ∧ c.toNat ≤ 90)) :
    jsToLowerChar c = c := by
  unfold jsToLowerChar
  rw [if_neg]
  intro hc
  exact h ⟨hc.1, hc.2⟩

theorem map_eq_self_of {α : Type} {f : α → α} {l : List α} (h : ∀ c ∈ l, f c = c) :
    l.map f = l := by
  induction l with
  | nil => rfl
  | cons a t ih =>
    rw [List.map_cons, h a (by simp), ih (fun c hc => h c (by simp [hc]))]

theorem trimL_eq_self_of_ends {l : List Char}
    (hhead : ∀ c, l.head? = some c → isJsWs c = false)
    (hlast : ∀ c, l.getLast? = some c → isJsWs c = false) :
    trimL l = l := by
  cases l with
  | nil => rfl
  | cons a t =>
    have ha : isJsWs a = false := hhead a rfl
    have h1 : (a :: t).dropWhile isJsWs = a :: t := by
      rw [List.dropWhile_cons, ha]
      simp
    unfold trimL
    rw [h1]
    obtain ⟨b, hb⟩ : ∃ b, (a :: t).getLast? = some b := by
      cases hgl : (a :: t).getLast? with
      | none => rw [List.getLast?_eq_none_iff] at hgl; cases hgl
      | some b => exact ⟨b, rfl⟩
    have hbws : isJsWs b = false := hlast b hb
    have hrev : (a :: t).reverse.head? = some b := by
      rw [List.head?_reverse]
      exact hb
    obtain ⟨t2, ht2⟩ : ∃ t2, (a :: t).reverse = b :: t2 := by
      cases hr : (a :: t).reverse with
      | nil => rw [hr] at hrev; cases hrev
      | cons c cs =>
        rw [hr] at hrev
        simp only [List.head?_cons, Option.some.injEq] at hrev
        exact ⟨cs, by rw [hrev]⟩
    rw [ht2, List.dropWhile_cons, hbws]
    simp only [Bool.false_eq_true, if_false]
    rw [← ht2]
    simp

theorem dropWhile_ws_append {w sds : List Char}
    (hw : ∀ c ∈ w, isJsWs c = true)
    (hs : ∀ c, sds.head? = some c → isJsWs c = false) :
    (w ++ sds).dropWhile isJsWs = sds := by
  induction w with
  | nil =>
    simp only [List.nil_append]
    cases sds with
    | nil => rfl
    | cons a t =>
      rw [List.dropWhile_cons, hs a rfl]
      simp
  | cons c w2 ih =>
    rw [List.cons_append, List.dropWhile_cons, hw c (by simp)]
    simp only [if_true]
    exact ih (fun d hd => hw d (by simp [hd]))

theorem parseSignedDec_shape {sds : List Char} {off : Int}
    (h : parseSignedDec sds = some off) :
    sds ≠ [] ∧
    (∀ c, sds.head? = some c → isJsWs c = false) ∧
    (∀ c, sds.getLast? = some c → isJsWs c = false) ∧
    (∀ c ∈ sds, ¬(65 ≤ c.toNat ∧ c.toNat ≤ 90)) := by
  unfold parseSignedDec at h
  split at h
  · next ds =>
    obtain ⟨n, hn, -⟩ := Option.map_eq_some'.mp h
    obtain ⟨hne, hdig⟩ := parseRadix_digits hn
    have hb : ∀ c ∈ ds, 48 ≤ c.toNat ∧ c.toNat ≤ 57 :=
      fun c hc => digit10_bounds (hdig c hc)
    refine ⟨by simp, ?_, ?_, ?_⟩
    · intro c hc
      simp only [List.head?_cons, Option.some.injEq] at hc
      subst hc
      decide
    · intro c hc
      cases ds with
      | nil => exact absurd rfl hne
      | cons d ds2 =>
        rw [List.getLast?_cons_cons] at hc
        have := hb c (List.mem_of_mem_getLast? hc)
        exact isJsWs_false_of_digit this.1 this.2
    · intro c hc
      rcases List.mem_cons.mp hc with rfl | hmem
      · decide
      · have := hb c hmem
        omega
  · next ds =>
    obtain ⟨n, hn, -⟩ := Option.map_eq_some'.mp h
    obtain ⟨hne, hdig⟩ := parseRadix_digits hn
    have hb : ∀ c ∈ ds, 48 ≤ c.toNat ∧ c.toNat ≤ 57 :=
      fun c hc => digit10_bounds (hdig c hc)
    refine ⟨by simp, ?_, ?_, ?_⟩
    · intro c hc
      simp only [List.head?_cons, Option.some.injEq] at hc
      subst hc
      decide
    · intro c hc
      cases ds with
      | nil => exact absurd rfl hne
      | cons d ds2 =>
        rw [List.getLast?_cons_cons] at hc
        have := hb c (List.mem_of_mem_getLast? hc)
        exact isJsWs_false_of_digit this.1 this.2
    · intro c hc
      rcases List.mem_cons.mp hc with rfl | hmem
      · decide
      · have := hb c hmem
        omega
  · next h1 h2 =>
    obtain ⟨n, hn, -⟩ := Option.map_eq_some'.mp h
    obtain ⟨hne, hdig⟩ := parseRadix_digits hn
    have hb : ∀ c ∈ sds, 48 ≤ c.toNat ∧ c.toNat ≤ 57 :=
      fun c hc => digit10_bounds (hdig c hc)
    refine ⟨hne, ?_, ?_, ?_⟩
    · intro c hc
      have := hb c (List.mem_of_mem_head? hc)
      exact isJsWs_false_of_digit this.1 this.2
    · intro c hc
      have := hb c (List.mem_of_mem_getLast? hc)
      exact isJsWs_false_of_digit this.1 this.2
    · intro c hc
      have := hb c hc
      omega

theorem latestOffset?_eq_none {l : List Char}
    (h : ∀ rest, l ≠ 'l' :: 'a' :: 't' :: 'e' :: 's' :: 't' :: rest) :
    latestOffset? l = none := by
  unfold latestOffset?
  split
  · next rest => exact absurd rfl (h rest)
  · rfl

/-! ### Claim theorems for the block-tag resolver -/

/-- Claim C1: for every chain head `h`, `resolveBlockTag` follows the
block-tag grammar, with each clause proved universally over the inputs
of its shape: every empty or whitespace-only input resolves to `h`;
every input whose trimmed, case-folded form is `"latest"` resolves to
`h`; `"latest"` followed by any run of whitespace and any signed
integer token with value `off` resolves to `h + off`; every bare digit
string of value `n` resolves to the absolute height `n`, with a leading
`+` to `h + n` and a leading `-` to `h - n`; and the spec's seven
concrete examples at head 1000 hold, with `"earliest"` passed
through. -/
theorem parseBlockTag_grammar (h : Int) :
    (∀ s : String, (∀ c ∈ s.toList, isJsWs c = true) → parseBlockTag s h = .num h) ∧
    (∀ s : String, (trimL s.toList).map jsToLowerChar = ['l', 'a', 't', 'e', 's', 't'] →
      parseBlockTag s h = .num h) ∧
    (∀ (w sds : List Char) (off : Int),
      (∀ c ∈ w, isJsWs c = true) → parseSignedDec sds = some off →
      parseBlockTag
          (String.mk ('l' :: 'a' :: 't' :: 'e' :: 's' :: 't' :: (w ++ sds))) h =
        .num (h + off)) ∧
    (∀ (ds : List Char) (n : Nat), parseRadix 10 ds = some n →
      parseBlockTag (String.mk ('+' :: ds)) h = .num (h + n) ∧
      parseBlockTag (String.mk ('-' :: ds)) h = .num (h - n) ∧
      parseBlockTag (String.mk ds) h = .num n) ∧
    parseBlockTag "latest" h = .num h ∧
    parseBlockTag "Latest" h = .num h ∧
    parseBlockTag "LATEST" h = .num h ∧
    parseBlockTag "latest-50" h = .num (h - 50) ∧
    parseBlockTag "latest +10" h = .num (h + 10) ∧
    parseBlockTag "LATEST  -7" h = .num (h - 7) ∧
    parseBlockTag "+25" h = .num (h + 25) ∧
    parseBlockTag "-25" h = .num (h - 25) ∧
    parseBlockTag "12345" h = .num 12345 ∧
    parseBlockTag "" 1000 = .num 1000 ∧
    parseBlockTag "latest" 1000 = .num 1000 ∧
    parseBlockTag "latest-50" 1000 = .num 950 ∧
    parseBlockTag "+25" 1000 = .num 1025 ∧
    parseBlockTag "-25" 1000 = .num 975 ∧
    parseBlockTag "12345" 1000 = .num 12345 ∧
    parseBlockTag "earliest" 1000 = .tag "earliest" := by
  refine ⟨?_, ?_, ?_, ?_, rfl, rfl, rfl, rfl, rfl, rfl, rfl, rfl, rfl,
    by decide, by decide, by decide, by decide, by decide, by decide, by decide⟩
  · intro s hs
    unfold parseBlockTag
    rw [if_pos (trimL_eq_nil hs)]
  · intro s hl
    unfold parseBlockTag
    by_cases he : trimL s.toList = []
    · rw [if_pos he]
    · rw [if_neg he, if_pos hl]
  · intro w sds off hw hsd
    obtain ⟨hne, hhd, hlt, hnup⟩ := parseSignedDec_shape hsd
    have hlastL : ∀ c,
        ('l' :: 'a' :: 't' :: 'e' :: 's' :: 't' :: (w ++ sds)).getLast? = some c →
        isJsWs c = false := by
      intro c hc
      rw [show ('l' :: 'a' :: 't' :: 'e' :: 's' :: 't' :: (w ++ sds)) =
          (('l' :: 'a' :: 't' :: 'e' :: 's' :: 't' :: w) ++ sds) from by simp,
        List.getLast?_append] at hc
      obtain ⟨b, hb⟩ : ∃ b, sds.getLast? = some b := by
        cases hgl : sds.getLast? with
        | none => rw [List.getLast?_eq_none_iff] at hgl; exact absurd hgl hne
        | some b => exact ⟨b, rfl⟩
      rw [hb] at hc
      simp only [Option.or_some, Option.some.injEq] at hc
      subst hc
      exact hlt b hb
    have htrim : trimL ('l' :: 'a' :: 't' :: 'e' :: 's' :: 't' :: (w ++ sds)) =
        'l' :: 'a' :: 't' :: 'e' :: 's' :: 't' :: (w ++ sds) :=
      trimL_eq_self_of_ends
        (by intro c hc
            simp only [List.head?_cons, Option.some.injEq] at hc
            subst hc
            decide)
        hlastL
    have hlower :
        ('l' :: 'a' :: 't' :: 'e' :: 's' :: 't' :: (w ++ sds)).map jsToLowerChar =
        'l' :: 'a' :: 't' :: 'e' :: 's' :: 't' :: (w ++ sds) := by
      apply map_eq_self_of
      intro c hc
      apply jsToLowerChar_eq_self
      simp only [List.mem_cons, List.mem_append] at hc
      rcases hc with rfl | rfl | rfl | rfl | rfl | rfl | hw2 | hs2
      · decide
      · decide
      · decide
      · decide
      · decide
      · decide
      · exact isJsWs_not_upper (hw c hw2)
      · exact hnup c hs2
    have hlat : ('l' :: 'a' :: 't' :: 'e' :: 's' :: 't' :: (w ++ sds)) ≠
        ['l', 'a', 't', 'e', 's', 't'] := by
      intro heq
      have hlen := congrArg List.length heq
      simp [List.length_append] at hlen
      exact hne hlen.2
    have hoff : latestOffset? ('l' :: 'a' :: 't' :: 'e' :: 's' :: 't' :: (w ++ sds)) =
        some off := by
      rw [show latestOffset? ('l' :: 'a' :: 't' :: 'e' :: 's' :: 't' :: (w ++ sds)) =
          parseSignedDec ((w ++ sds).dropWhile isJsWs) from rfl,
        dropWhile_ws_append hw hhd]
      exact hsd
    unfold parseBlockTag
    rw [show (String.mk ('l' :: 'a' :: 't' :: 'e' :: 's' :: 't' :: (w ++ sds))).toList =
        'l' :: 'a' :: 't' :: 'e' :: 's' :: 't' :: (w ++ sds) from rfl]
    rw [htrim, hlower, if_neg (List.cons_ne_nil _ _), if_neg hlat, hoff]
  · intro ds n hn
    obtain ⟨hne, hdig⟩ := parseRadix_digits hn
    have hb : ∀ c ∈ ds, 48 ≤ c.toNat ∧ c.toNat ≤ 57 :=
      fun c hc => digit10_bounds (hdig c hc)
    have hlastds : ∀ c, ds.getLast? = some c → isJsWs c = false := by
      intro c hc
      have := hb c (List.mem_of_mem_getLast? hc)
      exact isJsWs_false_of_digit this.1 this.2
    have hlower0 : ∀ sgn : Char, ¬(65 ≤ sgn.toNat ∧ sgn.toNat ≤ 90) →
        (sgn :: ds).map jsToLowerChar = sgn :: ds := by
      intro sgn hsgn
      apply map_eq_self_of
      intro c hc
      apply jsToLowerChar_eq_self
      rcases List.mem_cons.mp hc with rfl | hmem
      · exact hsgn
      · have := hb c hmem
        omega
    have hsigntrim : ∀ sgn : Char, isJsWs sgn = false →
        trimL (sgn :: ds) = sgn :: ds := by
      intro sgn hsgn
      apply trimL_eq_self_of_ends
      · intro c hc
        simp only [List.head?_cons, Option.some.injEq] at hc
        subst hc
        exact hsgn
      · intro c hc
        cases ds with
        | nil =>
          simp only [List.getLast?_singleton, Option.some.injEq] at hc
          subst hc
          exact hsgn
        | cons d ds2 =>
          rw [List.getLast?_cons_cons] at hc
          exact hlastds c hc
    have hlatsgn : ∀ sgn : Char, sgn ≠ 'l' →
        (sgn :: ds) ≠ ['l', 'a', 't', 'e', 's', 't'] := by
      intro sgn hsgn heq
      injection heq with h1 _
      exact hsgn h1
    have hoffsgn : ∀ sgn : Char, sgn ≠ 'l' → latestOffset? (sgn :: ds) = none := by
      intro sgn hsgn
      apply latestOffset?_eq_none
      intro rest heq
      injection heq with h1 _
      exact hsgn h1
    refine ⟨?_, ?_, ?_⟩
    · have htrim := hsigntrim '+' (by decide)
      have hbig : jsStringToBigIntL ('+' :: ds) = some (Int.ofNat n) := by
        unfold jsStringToBigIntL
        rw [htrim]
        show (parseRadix 10 ds).map Int.ofNat = some (Int.ofNat n)
        rw [hn]
        rfl
      unfold parseBlockTag
      rw [show (String.mk ('+' :: ds)).toList = '+' :: ds from rfl]
      rw [htrim, hlower0 '+' (by decide), if_neg (List.cons_ne_nil _ _),
        if_neg (hlatsgn '+' (by decide)), hoffsgn '+' (by decide), hbig]
      rfl
    · have htrim := hsigntrim '-' (by decide)
      have hbig : jsStringToBigIntL ('-' :: ds) = some (-(Int.ofNat n)) := by
        unfold jsStringToBigIntL
        rw [htrim]
        show (parseRadix 10 ds).map (fun k => -(Int.ofNat k)) = some (-(Int.ofNat n))
        rw [hn]
        rfl
      have hinner : jsStringToBigIntL ds = some (Int.ofNat n) :=
        jsStringToBigIntL_digits hn
      unfold parseBlockTag
      rw [show (String.mk ('-' :: ds)).toList = '-' :: ds from rfl]
      rw [htrim, hlower0 '-' (by decide), if_neg (List.cons_ne_nil _ _),
        if_neg (hlatsgn '-' (by decide)), hoffsgn '-' (by decide), hbig]
      have hred : (match jsStringToBigIntL ds with
          | some m => BlockTag.num (h - m)
          | none => BlockTag.tag (String.mk ('-' :: ds))) = BlockTag.num (h - n) := by
        rw [hinner]
        rfl
      exact hred
    · obtain ⟨d, ds2, rfl⟩ : ∃ d ds2, ds = d :: ds2 := by
        cases ds with
        | nil => exact absurd rfl hne
        | cons d ds2 => exact ⟨d, ds2, rfl⟩
      have hd : 48 ≤ d.toNat ∧ d.toNat ≤ 57 := hb d (by simp)
      have htrim : trimL (d :: ds2) = d :: ds2 := by
        apply trimL_eq_self_of_ends
        · intro c hc
          simp only [List.head?_cons, Option.some.injEq] at hc
          subst hc
          exact isJsWs_false_of_digit hd.1 hd.2
        · exact hlastds
      have hlower : (d :: ds2).map jsToLowerChar = d :: ds2 := by
        apply map_eq_self_of
        intro c hc
        apply jsToLowerChar_eq_self
        have := hb c hc
        omega
      have hlat : (d :: ds2) ≠ ['l', 'a', 't', 'e', 's', 't'] := by
        intro heq
        injection heq with h1 _
        rw [h1] at hd
        exact absurd hd (by decide)
      have hoffn : latestOffset? (d :: ds2) = none := by
        apply latestOffset?_eq_none
        intro rest heq
        injection heq with h1 _
        rw [h1] at hd
        exact absurd hd (by decide)
      have hbig : jsStringToBigIntL (d :: ds2) = some (Int.ofNat n) :=
        jsStringToBigIntL_digits hn
      unfold parseBlockTag
      rw [show (String.mk (d :: ds2)).toList = d :: ds2 from rfl]
      rw [htrim, hlower, if_neg (List.cons_ne_nil _ _), if_neg hlat, hoffn, hbig]
      have hred : (match d :: ds2 with
          | '+' :: _ => BlockTag.num (h + Int.ofNat n)
          | '-' :: rest =>
            (match jsStringToBigIntL rest with
             | some m => BlockTag.num (h - m)
             | none => BlockTag.tag (String.mk (d :: ds2)))
          | _ => BlockTag.num (Int.ofNat n)) = BlockTag.num (Int.ofNat n) := by
        split
        · next heq =>
          obtain ⟨h1, -⟩ : d = '+' ∧ ds2 = ds2 := by
            injection heq with i1 i2
            exact ⟨i1, rfl⟩
          rw [h1] at hd
          exact absurd hd (by decide)
        · next rest heq =>
          obtain ⟨h1, -⟩ : d = '-' ∧ ds2 = rest := by
            injection heq with i1 i2
            exact ⟨i1, i2⟩
          rw [h1] at hd
          exact absurd hd (by decide)
        · rfl
      exact hred

/-- Claim C1 witness: the whitespace-only clause at the concrete input
`" "` with head 1000. -/
theorem parseBlockTag_grammar_witness : parseBlockTag " " 1000 = .num 1000 :=
  (parseBlockTag_grammar 1000).1 " " (by decide)

/-- Claim C9: `resolveBlockTag` is total — for every input string and
chain head it returns either a resolved height or the original string,
exactly as written (not trimmed, not case-folded); unparseable text like
`"  Earliest "` or `"pending"` degrades to verbatim pass-through, never
to an error. -/
theorem parseBlockTag_total (h : Int) :
    (∀ s : String, (∃ n, parseBlockTag s h = .num n) ∨ parseBlockTag s h = .tag s) ∧
    parseBlockTag "  Earliest " h = .tag "  Earliest " ∧
    parseBlockTag "pending" h = .tag "pending" := by
  refine ⟨?_, rfl, rfl⟩
  intro s
  unfold parseBlockTag
  split
  · exact Or.inl ⟨_, rfl⟩
  · split
    · exact Or.inl ⟨_, rfl⟩
    · split
      · exact Or.inl ⟨_, rfl⟩
      · split
        · split
          · exact Or.inl ⟨_, rfl⟩
          · split
            · exact Or.inl ⟨_, rfl⟩
            · exact Or.inr rfl
          · exact Or.inl ⟨_, rfl⟩
        · exact Or.inr rfl

/-- Claim C10: the bare-number branch of `resolveBlockTag` accepts
prefixed integer literals — hexadecimal, octal and binary inputs parse
via `BigInt` and resolve to that absolute height for every chain head —
and a string is passed through only when the `BigInt` parser rejects its
trimmed form. -/
theorem parseBlockTag_prefixed (h : Int) :
    parseBlockTag "0x10" h = .num 16 ∧
    parseBlockTag "0X10" h = .num 16 ∧
    parseBlockTag "0o20" h = .num 16 ∧
    parseBlockTag "0b10000" h = .num 16 ∧
    parseBlockTag "0xff" h = .num 255 ∧
    (∀ s t : String, parseBlockTag s h = .tag t → jsStringToBigInt (jsTrim s) = none) := by
  refine ⟨rfl, rfl, rfl, rfl, rfl, ?_⟩
  intro s t hp
  unfold parseBlockTag at hp
  split at hp
  · cases hp
  · split at hp
    · cases hp
    · split at hp
      · cases hp
      · split at hp
        · next parsed hsome =>
          split at hp
          · cases hp
          · next rest heq =>
            split at hp
            · cases hp
            · next hnone =>
              have hidem := trimL_idem s.toList
              rw [heq] at hidem hsome
              obtain ⟨k, hk⟩ := jsStringToBigIntL_minus_tail hidem hsome
              rw [hk] at hnone
              cases hnone
          · cases hp
        · next hnone =>
          exact hnone

/-- Claim C10 witness: the pass-through clause applied at the concrete
input `"earliest"` with head 5. -/
theorem parseBlockTag_prefixed_witness : jsStringToBigInt (jsTrim "earliest") = none :=
  (parseBlockTag_prefixed 5).2.2.2.2.2 "earliest" "earliest" (by decide)

/-! ### Filter-builder and selection-state lemmas -/

theorem buildArgsFilters_go (l : List (String × String)) (acc : List (String × List String)) :
    l.foldl
        (fun acc kv =>
          if kv.2.length != 0 then acc ++ [(kv.1, splitAndTrim kv.2)] else acc)
        acc =
      acc ++ (l.filter (fun kv => kv.2.length != 0)).map (fun kv => (kv.1, splitAndTrim kv.2)) := by
  induction l generalizing acc with
  | nil => simp
  | cons kv t ih =>
    rw [List.foldl_cons, List.filter_cons]
    by_cases hkv : (kv.2.length != 0) = true
    · rw [if_pos hkv, ih, if_pos hkv]
      simp
    · rw [if_neg hkv, ih, if_neg hkv]

theorem buildArgsFilters_eq (l : List (String × String)) :
    buildArgsFilters l =
      (l.filter (fun kv => kv.2.length != 0)).map (fun kv => (kv.1, splitAndTrim kv.2)) := by
  unfold buildArgsFilters
  rw [buildArgsFilters_go]
  simp

theorem length_eq_zero_str {s : String} (h : s.length = 0) : s = "" := by
  cases s with
  | mk data =>
    cases data with
    | nil => rfl
    | cons c cs => simp [String.length] at h

theorem mem_buildArgsFilters {l : List (String × String)} {k v : String}
    (hmem : (k, v) ∈ l) (hv : v ≠ "") :
    (k, splitAndTrim v) ∈ buildArgsFilters l := by
  rw [buildArgsFilters_eq]
  refine List.mem_map.mpr ⟨(k, v), List.mem_filter.mpr ⟨hmem, ?_⟩, rfl⟩
  have hlen : v.length ≠ 0 := fun h0 => hv (length_eq_zero_str h0)
  simpa using hlen

/-- Claim C4 counterexample: the whitespace-only raw value `" "` for
`holder` is NOT omitted — the guard is `value.length !== 0`, so it
produces the entry `holder ↦ [""]`, contradicting "empty or
whitespace-only raw values produce no entry at all". -/
theorem buildArgsFilters_ws_counterexample :
    buildArgsFilters [("holder", " ")] = [("holder", [""])] ∧
    buildArgsFilters [("holder", " ")] ≠ [] := by decide

/-- Claim C4 (amended): a parameter's entry is included exactly when its
raw value is non-empty (`length !== 0`); the entry's list is the raw
value split on commas with each piece trimmed, so `"0xAAA, 0xBBB"`
yields `holder ↦ ["0xAAA", "0xBBB"]` and the empty raw value yields no
entry — but whitespace-only raw values DO produce an entry (whose
pieces trim to possibly empty strings). -/
theorem buildArgsFilters_spec (filters : List (String × String)) :
    buildArgsFilters filters =
      (filters.filter (fun kv => kv.2.length != 0)).map
        (fun kv => (kv.1, splitAndTrim kv.2)) ∧
    (∀ k v : String, (k, v) ∈ filters → v ≠ "" →
      (k, splitAndTrim v) ∈ buildArgsFilters filters) ∧
    splitAndTrim "0xAAA, 0xBBB" = ["0xAAA", "0xBBB"] ∧
    buildArgsFilters [("holder", "0xAAA, 0xBBB")] = [("holder", ["0xAAA", "0xBBB"])] ∧
    buildArgsFilters [("holder", "")] = [] := by
  exact ⟨buildArgsFilters_eq filters,
    fun k v hm hv => mem_buildArgsFilters hm hv, by decide, by decide, by decide⟩

/-- Claim C4 witness: the membership clause at the concrete filter state
`holder ↦ "0xAAA, 0xBBB"`. -/
theorem buildArgsFilters_spec_witness :
    ("holder", splitAndTrim "0xAAA, 0xBBB") ∈ buildArgsFilters [("holder", "0xAAA, 0xBBB")] :=
  (buildArgsFilters_spec [("holder", "0xAAA, 0xBBB")]).2.1 "holder" "0xAAA, 0xBBB"
    (by simp) (by decide)

/-- Claim C5 counterexample: enter `"0xAAA"` for `holder` (an indexed
parameter of the selected `CooldownStarted`), then select `Transfer`
(whose indexed parameters are `from` and `to` — no `holder`): the args
filter passed to the query still contains the stale `holder` entry, so
the filter is not restricted to parameters indexed on the currently
selected event. -/
theorem staleFilter_counterexample :
    buildArgsFilters
        (handleEventSelect "Transfer"
          (handleFilterChange "holder" "0xAAA" cooldownSelectedState)).indexedFilters =
      [("holder", ["0xAAA"])] ∧
    (selectedIndexedParams
        (handleEventSelect "Transfer"
          (handleFilterChange "holder" "0xAAA" cooldownSelectedState))).map
        (fun p => p.name) = ["from", "to"] := by decide

/-- Claim C5 (amended): the args filter is computed from the whole
`indexedFilters` state alone — every stored non-empty raw value
contributes an entry, with no restriction to (or lookup of) the
currently selected event's indexed parameters — and selecting a
different event leaves the stored values and hence the computed filter
unchanged. -/
theorem argsFilters_ignore_selection (st : AppState) (value : String) :
    (handleEventSelect value st).indexedFilters = st.indexedFilters ∧
    buildArgsFilters (handleEventSelect value st).indexedFilters =
      buildArgsFilters st.indexedFilters ∧
    (∀ k v : String, (k, v) ∈ st.indexedFilters → v ≠ "" →
      (k, splitAndTrim v) ∈ buildArgsFilters st.indexedFilters) :=
  ⟨rfl, rfl, fun _ _ hm hv => mem_buildArgsFilters hm hv⟩

/-- Claim C5 witness: the stale `holder ↦ "0xA"` value of
`afterQueryState` still contributes a filter entry after selecting
`Transfer`. -/
theorem argsFilters_ignore_selection_witness :
    ("holder", splitAndTrim "0xA") ∈ buildArgsFilters afterQueryState.indexedFilters :=
  (argsFilters_ignore_selection afterQueryState "Transfer").2.2 "holder" "0xA"
    (by decide) (by decide)

/-- Claim C8 counterexample: from a post-query state on page 2 with a
stored `holder` filter value, selecting the different event `Transfer`
(which has no `holder` parameter) leaves `currentPage` at 2 and the
`holder` value in place — neither the page reset nor the filter
clearing demanded by the claim happens. -/
theorem handleEventSelect_counterexample :
    (handleEventSelect "Transfer" afterQueryState).currentPage = 2 ∧
    (handleEventSelect "Transfer" afterQueryState).indexedFilters = [("holder", "0xA")] ∧
    ¬((handleEventSelect "Transfer" afterQueryState).currentPage = 1 ∧
      (handleEventSelect "Transfer" afterQueryState).indexedFilters = []) := by decide

/-- Claim C8 (amended): selecting a different event changes only
`selectedEvent`; `currentPage` is NOT reset to 1 and previously entered
indexed-filter raw values are NOT cleared — all other state fields are
left unchanged. -/
theorem handleEventSelect_frame (value : String) (st : AppState) :
    (handleEventSelect value st).selectedEvent = value ∧
    (handleEventSelect value st).currentPage = st.currentPage ∧
    (handleEventSelect value st).indexedFilters = st.indexedFilters ∧
    (handleEventSelect value st).events = st.events ∧
    (handleEventSelect value st).error = st.error ∧
    (handleEventSelect value st).eventsABI = st.eventsABI :=
  ⟨rfl, rfl, rfl, rfl, rfl, rfl⟩

/-! ### Query-pipeline atomicity -/

theorem error_prefix_ne_empty (msg : String) : ("Error: " ++ msg) ≠ "" := by
  intro h
  have h2 := congrArg String.length h
  rw [String.length_append] at h2
  have h3 : (7 : Nat) + msg.length = 0 := h2
  omega

/-- Claim C7: `fetchEvents` either succeeds — clearing the error,
resetting the page to 1 and replacing the stored events with the full
decoded sequence of the logs the client returned — or fails, in which
case the previously stored events and page number are left unchanged
and only a non-empty error message is produced; never both. -/
theorem fetchEvents_atomic (gb : Except String Int)
    (gl : String → Option Int → Option Int → List (String × List String) →
      Except String (List RawLog))
    (st : AppState) :
    ((fetchEvents gb gl st).error = "" ∧ (fetchEvents gb gl st).currentPage = 1 ∧
      ∃ latestNum logs, gb = .ok latestNum ∧
        gl st.selectedEvent
            (blockTagToArg (parseBlockTag st.formData.fromBlock latestNum))
            (blockTagToArg (parseBlockTag st.formData.toBlock latestNum))
            (buildArgsFilters st.indexedFilters) = .ok logs ∧
        (fetchEvents gb gl st).events = logs.map (fun log =>
          { blockNumber := some log.blockNumber,
            txHash := some log.transactionHash,
            args := log.args.getD [] })) ∨
    ((fetchEvents gb gl st).error ≠ "" ∧
      (fetchEvents gb gl st).events = st.events ∧
      (fetchEvents gb gl st).currentPage = st.currentPage) := by
  unfold fetchEvents
  split
  · next msg =>
    exact Or.inr ⟨error_prefix_ne_empty msg, rfl, rfl⟩
  · next latestNum =>
    split
    · next msg hgl =>
      exact Or.inr ⟨error_prefix_ne_empty msg, rfl, rfl⟩
    · next logs hgl =>
      exact Or.inl ⟨rfl, rfl, latestNum, logs, rfl, hgl, rfl⟩

/-! ### Pager lemmas -/

theorem jsSlice_nat {α : Type} (l : List α) (a b : Nat) :
    jsSlice l (a : Int) (b : Int) = (l.drop a).take (b - a) := by
  unfold jsSlice
  dsimp only
  rw [if_neg (by omega : ¬((a : Int) < 0)), if_neg (by omega : ¬((b : Int) < 0))]
  rw [show (min (a : Int) (l.length : Int)).toNat = min a l.length from by omega]
  rw [show ((min (b : Int) (l.length : Int)) - (min (a : Int) (l.length : Int))).toNat =
      min b l.length - min a l.length from by omega]
  have hd : l.drop (min a l.length) = l.drop a := by
    rcases le_or_lt a l.length with hle | hlt
    · rw [min_eq_left hle]
    · rw [min_eq_right (le_of_lt hlt), List.drop_eq_nil_of_le (le_refl _),
        List.drop_eq_nil_of_le (le_of_lt hlt)]
  rw [hd]
  apply List.take_eq_take.mpr
  rw [List.length_drop]
  omega

/-- Claim C6: for every sequence, positive page size and page number
`n ≥ 1`, `page` returns exactly the elements at zero-based offsets
`[(n-1)*size, n*size)` clipped to the sequence (an empty window past the
end, never an error), and `totalPages` is the ceiling of `length/size`
(characterized as the least `m` with `length ≤ m*size`), 0 for the
empty sequence; in particular on a 37-element sequence with page size
15, page 1 has 15 elements, page 3 is the last 7 elements, `totalPages`
is 3, and page 99 is empty. -/
theorem pager_spec {α : Type} (seq : List α) (size n : Nat)
    (hsize : 0 < size) (hn : 1 ≤ n) :
    pageOf seq size n = (seq.drop ((n - 1) * size)).take size ∧
    (seq.length ≤ (n - 1) * size → pageOf seq size n = []) ∧
    seq.length ≤ totalPages seq size * size ∧
    (∀ m : Nat, seq.length ≤ m * size → totalPages seq size ≤ m) ∧
    totalPages ([] : List α) size = 0 ∧
    (pageOf (List.range 37) 15 1).length = 15 ∧
    pageOf (List.range 37) 15 1 = List.range 15 ∧
    pageOf (List.range 37) 15 3 = [30, 31, 32, 33, 34, 35, 36] ∧
    totalPages (List.range 37) 15 = 3 ∧
    pageOf (List.range 37) 15 99 = [] := by
  have e1 : (((n - 1) * size : Nat) : Int) = (n : Int) * size - size := by
    have h1 : ((n - 1 : Nat) : Int) = (n : Int) - 1 := by omega
    rw [Nat.cast_mul, h1]
    ring
  have e2 : ((n * size : Nat) : Int) = (n : Int) * size := by
    rw [Nat.cast_mul]
  have hstep : (n - 1) * size + size = n * size := by
    rw [← Nat.succ_mul, Nat.succ_eq_add_one, Nat.sub_add_cancel hn]
  have hmain : pageOf seq size n = (seq.drop ((n - 1) * size)).take size := by
    have h2 : pageOf seq size n =
        jsSlice seq (((n - 1) * size : Nat) : Int) ((n * size : Nat) : Int) := by
      unfold pageOf
      rw [e1, e2]
    rw [h2, jsSlice_nat]
    congr 1
    omega
  refine ⟨hmain, ?_, ?_, ?_, ?_, by decide, by decide, by decide, by decide, by decide⟩
  · intro hpast
    rw [hmain, List.drop_eq_nil_of_le hpast]
    simp
  · have h1 : (seq.length + size - 1) / size ≤ (seq.length + size - 1) / size := le_refl _
    rw [Nat.div_le_iff_le_mul_add_pred hsize] at h1
    have h2 : totalPages seq size * size = size * totalPages seq size := Nat.mul_comm _ _
    rw [h2]
    show seq.length ≤ size * ((seq.length + size - 1) / size)
    omega
  · intro m hm
    show (seq.length + size - 1) / size ≤ m
    rw [Nat.div_le_iff_le_mul_add_pred hsize]
    have hm2 : seq.length ≤ size * m := by
      rw [Nat.mul_comm size m]
      exact hm
    omega
  · show (List.length ([] : List α) + size - 1) / size = 0
    apply Nat.div_eq_of_lt
    simp only [List.length_nil]
    omega

/-- Claim C6 witness: the window equation applied at the 37-element
sequence, page size 15, page 3. -/
theorem pager_spec_witness :
    pageOf (List.range 37) 15 3 = ((List.range 37).drop ((3 - 1) * 15)).take 15 :=
  (pager_spec (List.range 37) 15 3 (by decide) (by decide)).1

/-! ### Decode/normalize and schema-parse theorems -/

theorem decodeLogArgs_get? (inputs : List AbiEventInput) (args : List JsValue)
    (i : Nat) (input : AbiEventInput) (hi : inputs.get? i = some input) :
    (decodeLogArgs inputs args).get? i =
      some (input.name,
        match args.getD i .undef with
        | .bigint n => .str (jsBigIntToString n)
        | v => v) := by
  unfold decodeLogArgs
  rw [List.get?_map, List.get?_enum, hi]
  rfl

/-- Claim C3: the decoded argument record is built by iterating the
selected event's parameters in declared order (its keys are exactly the
parameter names in order); every positional value that is a `bigint` is
converted to its decimal string — `10^30` becomes the 31-digit string
with no precision loss — while every other decoded value kind passes
through unchanged; and the `bigIntStringify` replacer used by the
serialization path performs the same conversion. -/
theorem decodeLogArgs_spec (inputs : List AbiEventInput) (args : List JsValue) :
    (decodeLogArgs inputs args).map Prod.fst = inputs.map AbiEventInput.name ∧
    (∀ (i : Nat) (input : AbiEventInput) (n : Int), inputs.get? i = some input →
      args.getD i .undef = .bigint n →
      (decodeLogArgs inputs args).get? i = some (input.name, .str (jsBigIntToString n))) ∧
    (∀ (i : Nat) (input : AbiEventInput) (v : JsValue), inputs.get? i = some input →
      args.getD i .undef = v → (∀ n : Int, v ≠ .bigint n) →
      (decodeLogArgs inputs args).get? i = some (input.name, v)) ∧
    decodeLogArgs (transferItem.inputs.getD []) [.str "0xA", .str "0xB", .bigint (10 ^ 30)] =
      [("from", .str "0xA"), ("to", .str "0xB"),
       ("value", .str "1000000000000000000000000000000")] ∧
    (∀ (key : String) (n : Int),
      bigIntStringify key (.bigint n) = .str (jsBigIntToString n)) ∧
    (∀ (key : String) (v : JsValue), (∀ n : Int, v ≠ .bigint n) →
      bigIntStringify key v = v) := by
  refine ⟨?_, ?_, ?_, by decide, fun _ _ => rfl, ?_⟩
  · unfold decodeLogArgs
    rw [List.map_map]
    conv_rhs => rw [← List.enum_map_snd inputs, List.map_map]
    rfl
  · intro i input n hi hb
    rw [decodeLogArgs_get? inputs args i input hi, hb]
  · intro i input v hi hv hnb
    rw [decodeLogArgs_get? inputs args i input hi, hv]
    cases v with
    | bigint n => exact absurd rfl (hnb n)
    | str s => rfl
    | boolean b => rfl
    | nullv => rfl
    | undef => rfl
  · intro key v hnb
    cases v with
    | bigint n => exact absurd rfl (hnb n)
    | str s => rfl
    | boolean b => rfl
    | nullv => rfl
    | undef => rfl

/-- Claim C3 witness: the bigint clause at position 2 (the `value`
parameter) of the Transfer parameter list with raw value `10^30`. -/
theorem decodeLogArgs_spec_witness :
    (decodeLogArgs (transferItem.inputs.getD [])
        [.str "0xA", .str "0xB", .bigint (10 ^ 30)]).get? 2 =
      some ("value", .str (jsBigIntToString (10 ^ 30))) :=
  (decodeLogArgs_spec (transferItem.inputs.getD [])
      [.str "0xA", .str "0xB", .bigint (10 ^ 30)]).2.1 2
    { name := "value", type := "uint256", indexed := none } (10 ^ 30)
    (by decide) (by decide)

/-- Claim C2 counterexample: `"not json"` is not a valid structured
description, so `JSON.parse` throws — and in `handleInputChange` that
call sits outside any `try`, so the exception escapes the handler
instead of being converted into an explicit failure.  The `jsonParse`
oracle instantiated to the constantly-failing function models
`JSON.parse` on this invalid input. -/
theorem handleInputChange_throws :
    handleInputChangeABI "not json" (fun _ => none) initialState =
      .error "SyntaxError: JSON.parse failed" := by rfl

/-- Claim C2 (amended): `updateEventList` itself never throws — on a
valid description it stores exactly the event-kind entries in their
original order and selects the first one, and when there are zero
event-kind entries the internal "No events found" error is caught and
the catalog and selection are silently reset (no explicit failure is
surfaced); but `handleInputChange` propagates a `JSON.parse` exception
for any non-empty raw text the parser rejects, so invalid input throws
past the boundary rather than yielding a catalog-or-failure result. -/
theorem schema_parse_spec (abi : List AbiEventItem) (st : AppState) (raw : String)
    (p : String → Option (List AbiEventItem)) :
    (updateEventList abi st).eventsABI = abi.filter (fun item => item.type == "event") ∧
    (abi.filter (fun item => item.type == "event") = [] →
      (updateEventList abi st).eventsABI = [] ∧ (updateEventList abi st).selectedEvent = "") ∧
    (∀ (e : AbiEventItem) (rest : List AbiEventItem),
      abi.filter (fun item => item.type == "event") = e :: rest →
      (updateEventList abi st).selectedEvent = e.name) ∧
    ((handleInputChangeABI raw p st).isOk = false ↔
      jsTrim raw ≠ "" ∧ p (jsTrim raw) = none) := by
  refine ⟨?_, ?_, ?_, ?_⟩
  · unfold updateEventList
    split
    · next hnil => rw [hnil]
    · next e rest heq => rw [heq]
  · intro hnil
    unfold updateEventList
    rw [hnil]
    exact ⟨rfl, rfl⟩
  · intro e rest heq
    unfold updateEventList
    rw [heq]
  · unfold handleInputChangeABI
    by_cases h : jsTrim raw = ""
    · rw [if_pos h]
      simp [Except.isOk, Except.toBool, h]
    · rw [if_neg h]
      cases hp : p (jsTrim raw) with
      | none => simp [Except.isOk, Except.toBool, h, hp]
      | some abi2 => simp [Except.isOk, Except.toBool, h, hp]

/-- Claim C2 witness: the failure-characterization clause applied at the
concrete raw text `"x"` with the constantly-failing parse oracle. -/
theorem schema_parse_spec_witness :
    (handleInputChangeABI "x" (fun _ => none) initialState).isOk = false :=
  (schema_parse_spec [] initialState "x" (fun _ => none)).2.2.2.mpr ⟨by decide, rfl⟩
